import Mathlib

/-!
Shallow embedding of the pybacktest trading core (src/pybacktest/trade.py,
performance.py, strategy.py).  Python floats are modelled as rationals,
dates as integers, dicts as insertion-ordered association lists, and the
Python `int(x)` conversion as truncation toward zero.
-/

namespace Pybacktest

/-- Python `int(x)` on a rational: truncation toward zero. -/
def pyInt (q : ℚ) : ℤ :=
  if 0 ≤ q then ⌊q⌋ else ⌈q⌉

/-- `TradeType` enum from trade.py. -/
inductive TradeType where
  | BUY
  | SELL
  | INIT
  | DIVIDEND
deriving DecidableEq, Repr

/-- `TradeRecord` from trade.py. -/
structure TradeRecord where
  date : ℤ
  symbol : String
  trade_type : TradeType
  price : ℚ
  shares : ℚ
  commission : ℚ
  slippage : ℚ
  total_cost : ℚ
  cash_change : ℚ
  cash_balance : ℚ
deriving DecidableEq, Repr

/-- `Position` from trade.py; `cost_basis` is a stored field as in the source. -/
structure Position where
  symbol : String
  shares : ℚ
  avg_price : ℚ
  cost_basis : ℚ
deriving DecidableEq, Repr

/-- `Position.__init__(symbol, shares, avg_price)`: `cost_basis = shares*avg_price`. -/
def Position.make (symbol : String) (shares avg_price : ℚ) : Position :=
  ⟨symbol, shares, avg_price, shares * avg_price⟩

/-- `Position.add` from trade.py. -/
def Position.add (p : Position) (shares price : ℚ) : Position :=
  if shares ≤ 0 then p
  else
    let total_cost := p.cost_basis + shares * price
    let total_shares := p.shares + shares
    { p with
      shares := total_shares
      cost_basis := total_cost
      avg_price := if 0 < total_shares then total_cost / total_shares else 0 }

/-- `Position.remove` from trade.py; returns the actual shares removed and
the updated position. -/
def Position.remove (p : Position) (shares : ℚ) : ℚ × Position :=
  if shares ≤ 0 then (0, p)
  else
    let actual := min shares p.shares
    let remaining := p.shares - actual
    if remaining = 0 then
      (actual, { p with shares := 0, avg_price := 0, cost_basis := 0 })
    else
      (actual, { p with shares := remaining, cost_basis := remaining * p.avg_price })

/-- `Position.market_value` from trade.py. -/
def Position.market_value (p : Position) (current_price : ℚ) : ℚ :=
  p.shares * current_price

/-- `TradeCost` parameters from trade.py. -/
structure TradeCost where
  commission_rate : ℚ
  min_commission : ℚ
  slippage_rate : ℚ
deriving DecidableEq, Repr

/-- `TradeCost.calculate` from trade.py:
commission is `max(price*shares*commission_rate, min_commission)`,
slippage is `price*shares*slippage_rate`. -/
def TradeCost.calculate (tc : TradeCost) (price shares : ℚ) : ℚ × ℚ × ℚ :=
  let commission := max (price * shares * tc.commission_rate) tc.min_commission
  let slippage := price * shares * tc.slippage_rate
  (commission, slippage, commission + slippage)

/-- One entry of `daily_portfolio_value` in trade.py. -/
structure Snapshot where
  date : ℤ
  cash : ℚ
  positions_value : List (String × ℚ)
  total_value : ℚ
deriving DecidableEq, Repr

/-- `TradeManager` state from trade.py.  The positions dict is an
insertion-ordered association list. -/
structure TradeManager where
  initial_cash : ℚ
  cash : ℚ
  trade_cost : TradeCost
  positions : List (String × Position)
  trade_history : List TradeRecord
  daily_portfolio_value : List Snapshot
deriving DecidableEq, Repr

/-- `TradeManager.__init__`: note that the trade history starts EMPTY;
no INIT record is appended by the constructor. -/
def mkTradeManager (initial_cash : ℚ) (trade_cost : TradeCost) : TradeManager :=
  { initial_cash := initial_cash
    cash := initial_cash
    trade_cost := trade_cost
    positions := []
    trade_history := []
    daily_portfolio_value := [] }

/-- Dict lookup `self.positions[symbol]` (None when absent). -/
def TradeManager.getPos? (tm : TradeManager) (symbol : String) : Option Position :=
  (tm.positions.find? (fun p => p.1 == symbol)).map Prod.snd

/-- Dict assignment `self.positions[symbol] = pos`. -/
def setPos (l : List (String × Position)) (symbol : String) (pos : Position) :
    List (String × Position) :=
  if l.any (fun p => p.1 == symbol) then
    l.map (fun p => if p.1 == symbol then (symbol, pos) else p)
  else l ++ [(symbol, pos)]

/-- Share sizing from an amount in `TradeManager.buy` (lines 229-234 of
trade.py): `shares = int(amount/price/100)*100`, with a 100-share fallback
when it rounds to 0, partial fills are allowed and `amount/price >= 1`. -/
def buySizing (amount price : ℚ) (allowPartial : Bool) : ℚ :=
  let max_shares := amount / price
  let shares : ℚ := (pyInt (max_shares / 100) : ℚ) * 100
  if shares = 0 ∧ allowPartial = true ∧ 1 ≤ max_shares then 100 else shares

/-- The share count resolved at the top of `TradeManager.buy`: an explicit
share count wins, otherwise the amount is sized by `buySizing`. -/
def resolveBuyShares (sharesOpt amountOpt : Option ℚ) (price : ℚ)
    (allowPartial : Bool) : ℚ :=
  match sharesOpt with
  | some s => s
  | none => buySizing (amountOpt.getD 0) price allowPartial

/-- The reduced lot computed when the intended spend exceeds cash
(line 248 of trade.py):
`int((cash / (price*(1+commission_rate+slippage_rate))) / 100) * 100`. -/
def buyMaxShares (cash price : ℚ) (tc : TradeCost) : ℚ :=
  (pyInt (cash / (price * (1 + tc.commission_rate + tc.slippage_rate)) / 100) : ℚ) * 100

/-- The committed tail of `TradeManager.buy`: update cash, update the
position, append the BUY record. -/
def TradeManager.commitBuy (tm : TradeManager) (date : ℤ) (symbol : String)
    (price shares commission slippage total_cost total_spend : ℚ) :
    Option TradeRecord × TradeManager :=
  let cash1 := tm.cash - total_spend
  let pos0 := (tm.getPos? symbol).getD (Position.make symbol 0 0)
  let pos1 := pos0.add shares price
  let rec1 : TradeRecord :=
    { date := date, symbol := symbol, trade_type := TradeType.BUY
      price := price, shares := shares, commission := commission
      slippage := slippage, total_cost := total_cost
      cash_change := -total_spend, cash_balance := cash1 }
  (some rec1,
    { tm with
      cash := cash1
      positions := setPos tm.positions symbol pos1
      trade_history := tm.trade_history ++ [rec1] })

/-- The body of `TradeManager.buy` once the price check and directive check
have passed and the share count has been resolved: affordability check,
partial-fill recompute and commit (lines 236-281 of trade.py).  A rejected
buy is `(none, tm)` with the state unchanged. -/
def TradeManager.buyCore (tm : TradeManager) (date : ℤ) (symbol : String)
    (price shares1 : ℚ) (allowPartial : Bool) :
    Option TradeRecord × TradeManager :=
  let c1 := tm.trade_cost.calculate price shares1
  let spend1 := price * shares1 + c1.2.2
  if tm.cash < spend1 then
    if allowPartial = false then (none, tm)
    else
      let max_shares := buyMaxShares tm.cash price tm.trade_cost
      if max_shares = 0 then (none, tm)
      else
        let c2 := tm.trade_cost.calculate price max_shares
        tm.commitBuy date symbol price max_shares c2.1 c2.2.1 c2.2.2
          (price * max_shares + c2.2.2)
  else
    tm.commitBuy date symbol price shares1 c1.1 c1.2.1 c1.2.2 spend1

/-- `TradeManager.buy` from trade.py.  Raised `ValueError`s are modelled as
`Except.error`; a rejected buy is `.ok (none, tm)` with the state unchanged. -/
def TradeManager.buy (tm : TradeManager) (date : ℤ) (symbol : String) (price : ℚ)
    (sharesOpt amountOpt : Option ℚ) (allowPartial : Bool) :
    Except String (Option TradeRecord × TradeManager) :=
  if price ≤ 0 then Except.error "InvalidPrice"
  else if sharesOpt = none ∧ amountOpt = none then
    Except.error "MissingSizeDirective"
  else
    Except.ok (tm.buyCore date symbol price
      (resolveBuyShares sharesOpt amountOpt price allowPartial) allowPartial)

/-- Sell share sizing in `TradeManager.sell` (lines 307-321 of trade.py),
before the final clamp to the held quantity.  `Except.error` models the
`ValueError` raised on an out-of-range percent. -/
def resolveSellShares (held : ℚ) (sharesOpt amountOpt percentOpt : Option ℚ)
    (price : ℚ) : Except String ℚ :=
  match sharesOpt, amountOpt, percentOpt with
  | none, none, none => Except.ok held
  | some s, _, _ => Except.ok s
  | none, some amount, _ =>
    let s := min held ((pyInt (amount / price / 100) : ℚ) * 100)
    Except.ok (if s = 0 ∧ price ≤ amount then min held 100 else s)
  | none, none, some percent =>
    if 0 ≤ percent ∧ percent ≤ 1 then
      let s := (pyInt (held * percent / 100) : ℚ) * 100
      Except.ok (if s = 0 ∧ 0 < percent then min held 100 else s)
    else Except.error "InvalidFraction"

/-- `TradeManager.sell` from trade.py. -/
def TradeManager.sell (tm : TradeManager) (date : ℤ) (symbol : String) (price : ℚ)
    (sharesOpt amountOpt percentOpt : Option ℚ) :
    Except String (Option TradeRecord × TradeManager) :=
  if price ≤ 0 then Except.error "InvalidPrice"
  else
    match tm.getPos? symbol with
    | none => Except.ok (none, tm)
    | some position =>
      if position.shares = 0 then Except.ok (none, tm)
      else
        match resolveSellShares position.shares sharesOpt amountOpt percentOpt price with
        | Except.error e => Except.error e
        | Except.ok shares0 =>
          let shares := min shares0 position.shares
          let c := tm.trade_cost.calculate price shares
          let total_income := price * shares - c.2.2
          let cash1 := tm.cash + total_income
          let pos1 := (position.remove shares).2
          let rec1 : TradeRecord :=
            { date := date, symbol := symbol, trade_type := TradeType.SELL
              price := price, shares := shares, commission := c.1
              slippage := c.2.1, total_cost := c.2.2
              cash_change := total_income, cash_balance := cash1 }
          Except.ok (some rec1,
            { tm with
              cash := cash1
              positions := setPos tm.positions symbol pos1
              trade_history := tm.trade_history ++ [rec1] })

/-- The INIT record appended by `TradeManager.reset`; `now` stands for
`datetime.now()`. -/
def initRecord (now : ℤ) (initial_cash : ℚ) : TradeRecord :=
  { date := now, symbol := "", trade_type := TradeType.INIT
    price := 0, shares := 0, commission := 0, slippage := 0, total_cost := 0
    cash_change := initial_cash, cash_balance := initial_cash }

/-- `TradeManager.reset` from trade.py, with `datetime.now()` passed in
explicitly as `now`. -/
def TradeManager.reset (tm : TradeManager) (now : ℤ) : TradeManager :=
  { tm with
    cash := tm.initial_cash
    positions := []
    daily_portfolio_value := []
    trade_history := [initRecord now tm.initial_cash] }

/-- `TradeManager.update_portfolio_value` from trade.py. -/
def TradeManager.update_portfolio_value (tm : TradeManager) (date : ℤ)
    (price_dict : List (String × ℚ)) : TradeManager :=
  let acc := tm.positions.foldl
    (fun (acc : ℚ × List (String × ℚ)) (p : String × Position) =>
      if 0 < p.2.shares then
        match price_dict.lookup p.1 with
        | some price => (acc.1 + p.2.market_value price,
            acc.2 ++ [(p.1, p.2.market_value price)])
        | none => acc
      else acc)
    (tm.cash, [])
  { tm with
    daily_portfolio_value := tm.daily_portfolio_value ++
      [{ date := date, cash := tm.cash, positions_value := acc.2, total_value := acc.1 }] }

/-! ### Helper lemmas about `pyInt` -/

lemma pyInt_of_nonneg (q : ℚ) (h : 0 ≤ q) : pyInt q = ⌊q⌋ := by
  simp [pyInt, h]

lemma pyInt_nonneg (q : ℚ) (h : 0 ≤ q) : 0 ≤ pyInt q := by
  rw [pyInt_of_nonneg q h]
  exact Int.floor_nonneg.2 h

lemma pyInt_div_hundred_mul_le (q : ℚ) (h : 0 ≤ q) :
    ((pyInt (q / 100) : ℚ)) * 100 ≤ q := by
  rw [pyInt_of_nonneg _ (by positivity)]
  have h1 : ((⌊q / 100⌋ : ℚ)) ≤ q / 100 := Int.floor_le _
  have h2 : ((⌊q / 100⌋ : ℚ)) * 100 ≤ (q / 100) * 100 := by
    have : (0:ℚ) ≤ 100 := by norm_num
    exact mul_le_mul_of_nonneg_right h1 this
  calc ((⌊q / 100⌋ : ℚ)) * 100 ≤ (q / 100) * 100 := h2
    _ = q := by ring

/-! ### Helper lemmas about the positions dictionary -/

lemma find?_map_update (l : List (String × Position)) (sym : String) (pos : Position)
    (h : l.any (fun p => p.1 == sym) = true) :
    ((l.map (fun p => if p.1 == sym then (sym, pos) else p)).find?
      (fun p => p.1 == sym)) = some (sym, pos) := by
  induction l with
  | nil => simp at h
  | cons a t ih =>
    rw [List.any_cons] at h
    by_cases hb : (a.1 == sym) = true
    · rw [List.map_cons, if_pos hb]
      exact List.find?_cons_of_pos _ (by simp)
    · have hb' : (a.1 == sym) = false := by
        exact Bool.not_eq_true _ ▸ (by simpa using hb)
      have ht : t.any (fun p => p.1 == sym) = true := by
        rw [hb'] at h
        simpa using h
      rw [List.map_cons, if_neg hb]
      rw [List.find?_cons_of_neg _ (by simpa using hb)]
      exact ih ht

lemma find?_of_any_eq_false (l : List (String × Position)) (sym : String)
    (h : l.any (fun p => p.1 == sym) = false) :
    l.find? (fun p => p.1 == sym) = none := by
  induction l with
  | nil => rfl
  | cons a t ih =>
    rw [List.any_cons] at h
    have hb : (a.1 == sym) = false := by
      cases hab : (a.1 == sym) with
      | false => rfl
      | true => rw [hab] at h; simp at h
    have ht : t.any (fun p => p.1 == sym) = false := by
      rw [hb] at h
      simpa using h
    rw [List.find?_cons_of_neg _ (by simp [hb])]
    exact ih ht

/-- After `setPos l sym pos`, looking the symbol up yields exactly `pos`. -/
lemma getPos?_setPos (l : List (String × Position)) (sym : String) (pos : Position) :
    ((setPos l sym pos).find? (fun p => p.1 == sym)).map Prod.snd = some pos := by
  by_cases h : l.any (fun p => p.1 == sym) = true
  · rw [setPos, if_pos h, find?_map_update l sym pos h]
    rfl
  · have h' : l.any (fun p => p.1 == sym) = false := by
      cases hab : l.any (fun p => p.1 == sym) with
      | false => rfl
      | true => exact absurd hab h
    rw [setPos, if_neg (by simp [h']), List.find?_append,
      find?_of_any_eq_false l sym h']
    simp

/-! ### Claim theorems -/

/-- C2 counterexample: with the default cost parameters
(commission_rate 0.0003, min_commission 5, slippage_rate 0.0001) and
price 100, `calculate(price, 0)` returns commission 5, not 0: the
`min_commission` floor applies even to a zero-share trade, so the claim
that `shares = 0` yields all-zero costs is false. -/
theorem C2_cex :
    (TradeCost.calculate ⟨3/10000, 5, 1/10000⟩ 100 0) = (5, 0, 5) ∧
      ((5 : ℚ) ≠ 0) := by
  constructor
  · norm_num [TradeCost.calculate]
  · norm_num

/-- C2 amended: for every cost model with `min_commission ≥ 0` and every
price, `calculate(price, 0)` returns commission `min_commission`,
slippage `0` and total cost `min_commission`. -/
theorem C2_zero_share_cost (tc : TradeCost) (price : ℚ)
    (hmc : 0 ≤ tc.min_commission) :
    tc.calculate price 0 = (tc.min_commission, 0, tc.min_commission) := by
  simp [TradeCost.calculate, max_eq_right hmc]

/-- Witness for C2 amended at the default cost parameters and price 100. -/
theorem C2_zero_share_cost_witness :
    (TradeCost.calculate ⟨3/10000, 5, 1/10000⟩ 100 0) = (5, 0, 5) :=
  C2_zero_share_cost ⟨3/10000, 5, 1/10000⟩ 100 (by norm_num)

/-- C3 counterexample: a freshly constructed `TradeManager` has an EMPTY
trade history — there is no first entry at all, so the first entry is not
an INIT record.  Only `reset()` appends the INIT record. -/
theorem C3_cex :
    (mkTradeManager 100000 ⟨3/10000, 5, 1/10000⟩).trade_history.head? = none :=
  rfl

/-- C3 amended: a freshly constructed `TradeManager` has an empty trade
history; after every `reset()` the trade history consists of exactly one
INIT record whose `cash_change` equals `initial_cash`. -/
theorem C3_init_record (ic : ℚ) (tc : TradeCost) (tm : TradeManager) (now : ℤ) :
    (mkTradeManager ic tc).trade_history = [] ∧
    (tm.reset now).trade_history = [initRecord now tm.initial_cash] ∧
    (initRecord now tm.initial_cash).trade_type = TradeType.INIT ∧
    (initRecord now tm.initial_cash).cash_change = tm.initial_cash := by
  refine ⟨rfl, rfl, rfl, rfl⟩

/-- C6 confirmed: `reset()` is idempotent — resetting twice yields exactly
the state of resetting once (with the second call's clock reading), and the
reset state has `cash = initial_cash`, empty positions and a trade history
of exactly one INIT record. -/
theorem C6_reset_idempotent (tm : TradeManager) (now1 now2 : ℤ) :
    (tm.reset now1).reset now2 = tm.reset now2 ∧
    (tm.reset now2).cash = tm.initial_cash ∧
    (tm.reset now2).positions = [] ∧
    (tm.reset now2).trade_history = [initRecord now2 tm.initial_cash] := by
  refine ⟨rfl, rfl, rfl, rfl⟩

/-- C4 counterexample: a buy call with `allow_partial = False`, price 1 and
amount 50 (so `amount/price = 50 ≥ 1` and the lot floor is 0) commits a
BUY record with 0 shares — not the claimed minimum lot of 100.  The
100-share fallback fires only when `allow_partial` is true. -/
theorem C4_cex :
    ((mkTradeManager 1000000 ⟨0, 0, 0⟩).buy 0 "X" 1 none (some 50)
        false).toOption.map (fun p => p.1.map (fun r => r.shares)) =
      some (some 0) ∧ (1 : ℚ) ≤ 50 / 1 ∧ (0 : ℚ) ≠ 100 := by
  refine ⟨?_, by norm_num, by norm_num⟩
  norm_num [mkTradeManager, TradeManager.buy, TradeManager.buyCore, resolveBuyShares, buySizing,
    pyInt, TradeCost.calculate, TradeManager.commitBuy, TradeManager.getPos?,
    setPos, Position.make, Position.add, Except.toOption, Option.some_ne_none]

/-- C4 amended: for a buy with an amount directive, price > 0, amount ≥ 0
and `allow_partial = true` (the default), the sized share count is
`floor(amount/price/100)*100`, except that when that floor is 0 and
`amount/price ≥ 1` it is exactly 100. -/
theorem C4_amount_sizing (amount price : ℚ) (hp : 0 < price) (ha : 0 ≤ amount) :
    buySizing amount price true =
      (if ((⌊amount / price / 100⌋ : ℚ)) * 100 = 0 ∧ 1 ≤ amount / price
       then 100 else ((⌊amount / price / 100⌋ : ℚ)) * 100) := by
  have hq : 0 ≤ amount / price := div_nonneg ha hp.le
  have hpi : pyInt (amount / price / 100) = ⌊amount / price / 100⌋ :=
    pyInt_of_nonneg _ (by positivity)
  simp only [buySizing]
  rw [hpi]
  simp

/-- Witness for C4 amended: with amount 50 and price 1 the floor is 0 and
`amount/price = 50 ≥ 1`, so the sized share count is 100. -/
theorem C4_amount_sizing_witness : buySizing 50 1 true = 100 := by
  have h := C4_amount_sizing 50 1 (by norm_num) (by norm_num)
  rw [h]
  norm_num

/-- C5 confirmed: a buy whose intended spend exceeds cash and whose
recomputed maximum affordable lot is 0 is rejected atomically — it returns
no trade and leaves the whole `TradeManager` state (cash, positions, trade
history) unchanged. -/
theorem C5_atomic_reject (tm : TradeManager) (d : ℤ) (sym : String) (price : ℚ)
    (sharesOpt amountOpt : Option ℚ) (ap : Bool) (hp : 0 < price)
    (hdir : sharesOpt.isSome = true ∨ amountOpt.isSome = true)
    (hspend : tm.cash < price * resolveBuyShares sharesOpt amountOpt price ap +
      (tm.trade_cost.calculate price
        (resolveBuyShares sharesOpt amountOpt price ap)).2.2)
    (hmax : buyMaxShares tm.cash price tm.trade_cost = 0) :
    tm.buy d sym price sharesOpt amountOpt ap = Except.ok (none, tm) := by
  have hple : ¬ price ≤ 0 := not_le.2 hp
  cases sharesOpt with
  | none =>
    cases amountOpt with
    | none => simp at hdir
    | some a =>
      simp only [TradeManager.buy, TradeManager.buyCore, if_neg hple, if_pos hspend, hmax]
      cases ap <;> simp
  | some s =>
    cases amountOpt with
    | none =>
      simp only [TradeManager.buy, TradeManager.buyCore, if_neg hple, if_pos hspend, hmax]
      cases ap <;> simp
    | some a =>
      simp only [TradeManager.buy, TradeManager.buyCore, if_neg hple, if_pos hspend, hmax]
      cases ap <;> simp

/-- Concrete account for the C5 witness: cash 50, default cost parameters. -/
def tmC5 : TradeManager := mkTradeManager 50 ⟨3/10000, 5, 1/10000⟩

/-- Witness for C5: buying 100 shares at price 1 with only 50 cash
(spend 105.01 > 50, affordable lot 0) is rejected with no state change. -/
theorem C5_atomic_reject_witness :
    tmC5.buy 0 "X" 1 (some 100) none true = Except.ok (none, tmC5) := by
  refine C5_atomic_reject tmC5 0 "X" 1 (some 100) none true (by norm_num)
    (Or.inl rfl) ?_ ?_
  · norm_num [tmC5, mkTradeManager, resolveBuyShares, TradeCost.calculate]
  · norm_num [tmC5, mkTradeManager, buyMaxShares, pyInt]

/-- Concrete account holding 100 shares of "X" for the C10 witness. -/
def tmC10 : TradeManager :=
  { initial_cash := 1000
    cash := 500
    trade_cost := ⟨3/10000, 5, 1/10000⟩
    positions := [("X", Position.make "X" 100 2)]
    trade_history := []
    daily_portfolio_value := [] }

/-- C10 confirmed: on an account holding shares of a symbol, a sell with an
explicit share directive of 0 is not a no-op — it appends a SELL record
with 0 shares whose `cash_change` is `-min_commission`, decreases cash by
`min_commission`, and leaves the position itself unchanged. -/
theorem C10_zero_share_sell (tm : TradeManager) (d : ℤ) (sym : String)
    (price : ℚ) (p : Position) (hpos : tm.getPos? sym = some p)
    (hheld : 0 < p.shares) (hp : 0 < price)
    (hmc : 0 < tm.trade_cost.min_commission) :
    ∃ r tm', tm.sell d sym price (some 0) none none = Except.ok (some r, tm') ∧
      r.trade_type = TradeType.SELL ∧ r.shares = 0 ∧
      r.cash_change = -tm.trade_cost.min_commission ∧
      tm'.cash = tm.cash - tm.trade_cost.min_commission ∧
      tm'.getPos? sym = some p := by
  have hple : ¬ price ≤ 0 := not_le.2 hp
  have hne : ¬ p.shares = 0 := ne_of_gt hheld
  have hmin : min (0 : ℚ) p.shares = 0 := min_eq_left hheld.le
  have hcomm : max (price * 0 * tm.trade_cost.commission_rate)
      tm.trade_cost.min_commission = tm.trade_cost.min_commission := by
    rw [mul_zero, zero_mul]
    exact max_eq_right hmc.le
  have hrem : (p.remove 0).2 = p := by
    simp [Position.remove]
  simp only [TradeManager.sell, if_neg hple, hpos, if_neg hne,
    resolveSellShares, TradeCost.calculate, hmin, hcomm, hrem]
  refine ⟨_, _, rfl, rfl, rfl, by ring, by ring, ?_⟩
  show ((setPos tm.positions sym p).find?
      (fun q => q.1 == sym)).map Prod.snd = some p
  exact getPos?_setPos tm.positions sym p

/-- Witness for C10: selling 0 shares of a held position at price 10 with
min_commission 5 commits a SELL record and drains 5 cash. -/
theorem C10_zero_share_sell_witness :
    ∃ r tm', tmC10.sell 0 "X" 10 (some 0) none none = Except.ok (some r, tm') ∧
      r.trade_type = TradeType.SELL ∧ r.shares = 0 ∧
      r.cash_change = -tmC10.trade_cost.min_commission ∧
      tm'.cash = tmC10.cash - tmC10.trade_cost.min_commission ∧
      tm'.getPos? "X" = some (Position.make "X" 100 2) :=
  C10_zero_share_sell tmC10 0 "X" 10 (Position.make "X" 100 2) rfl
    (by norm_num [Position.make]) (by norm_num) (by norm_num [tmC10])

/-! ### Round-trip helper lemmas (zero cost model) -/

lemma buy_explicit_zero_cost (tm : TradeManager) (d : ℤ) (sym : String)
    (price N : ℚ) (htc : tm.trade_cost = ⟨0, 0, 0⟩) (hp : 0 < price)
    (hcash : price * N ≤ tm.cash) :
    ∃ r1 tm1, tm.buy d sym price (some N) none true = Except.ok (some r1, tm1) ∧
      tm1.cash = tm.cash - price * N ∧
      tm1.trade_cost = tm.trade_cost ∧
      tm1.getPos? sym =
        some (((tm.getPos? sym).getD (Position.make sym 0 0)).add N price) := by
  have hc1 : tm.trade_cost.calculate price N = (0, 0, 0) := by
    rw [htc]; simp [TradeCost.calculate]
  have hnlt : ¬ tm.cash < price * N + (0 : ℚ) := by
    rw [add_zero]; exact not_lt.2 hcash
  simp only [TradeManager.buy, TradeManager.buyCore, if_neg (not_le.2 hp), resolveBuyShares, hc1,
    TradeManager.commitBuy, if_neg hnlt]
  refine ⟨_, _, rfl, by ring, rfl, ?_⟩
  exact getPos?_setPos tm.positions sym _

lemma sell_explicit_zero_cost (tm : TradeManager) (d : ℤ) (sym : String)
    (price N : ℚ) (q : Position) (htc : tm.trade_cost = ⟨0, 0, 0⟩)
    (hp : 0 < price) (hq : tm.getPos? sym = some q) (hne : ¬ q.shares = 0)
    (hNle : N ≤ q.shares) :
    ∃ r2 tm2, tm.sell d sym price (some N) none none = Except.ok (some r2, tm2) ∧
      tm2.cash = tm.cash + price * N := by
  have hmin : min N q.shares = N := min_eq_left hNle
  have hc : tm.trade_cost.calculate price N = (0, 0, 0) := by
    rw [htc]; simp [TradeCost.calculate]
  simp only [TradeManager.sell, if_neg (not_le.2 hp), hq, if_neg hne,
    resolveSellShares, hmin, hc]
  exact ⟨_, _, rfl, by ring⟩

/-- Concrete account for the C7 counterexample: cash 10000,
commission_rate 0, min_commission 5, slippage_rate 0. -/
def tmC7 : TradeManager := mkTradeManager 10000 ⟨0, 5, 0⟩

/-- C7 counterexample: with commission_rate and slippage_rate both zero but
min_commission 5, buying 100 shares at price 10 and immediately selling all
100 at the same price ends with cash 9990 ≠ 10000: each leg pays the
minimum commission, so cash is NOT unchanged. -/
theorem C7_cex :
    ((((tmC7.buy 0 "X" 10 (some 100) none true).toOption.bind
        (fun p => (p.2.sell 1 "X" 10 (some 100) none none).toOption)).map
      (fun p => p.2.cash)) = some 9990) ∧ (9990 : ℚ) ≠ 10000 := by
  constructor
  · norm_num [tmC7, mkTradeManager, TradeManager.buy, TradeManager.buyCore, resolveBuyShares,
      buySizing, pyInt, TradeCost.calculate, TradeManager.commitBuy,
      TradeManager.getPos?, setPos, Position.make, Position.add,
      TradeManager.sell, resolveSellShares, Position.remove,
      Except.toOption, Option.some_ne_none, min_def, max_def]
  · norm_num

/-- C7 amended: with a cost model whose commission_rate, slippage_rate AND
min_commission are all zero, and enough cash to fill the buy
(`price*N ≤ cash`), buying `N` shares (a positive multiple of the 100-share
lot) and immediately selling all `N` at the same price leaves cash exactly
unchanged. -/
theorem C7_round_trip (tm : TradeManager) (d1 d2 : ℤ) (sym : String)
    (price N : ℚ) (htc : tm.trade_cost = ⟨0, 0, 0⟩) (hp : 0 < price)
    (hlot : ∃ k : ℕ, 0 < k ∧ N = (k : ℚ) * 100)
    (hcash : price * N ≤ tm.cash)
    (hheld : 0 ≤ ((tm.getPos? sym).getD (Position.make sym 0 0)).shares) :
    ∃ r1 tm1 r2 tm2,
      tm.buy d1 sym price (some N) none true = Except.ok (some r1, tm1) ∧
      tm1.sell d2 sym price (some N) none none = Except.ok (some r2, tm2) ∧
      tm2.cash = tm.cash := by
  obtain ⟨k, hk, hNk⟩ := hlot
  have hN : 0 < N := by
    rw [hNk]
    have : (0:ℚ) < (k : ℚ) := by exact_mod_cast hk
    nlinarith
  obtain ⟨r1, tm1, hbuy, hcash1, htc1, hgp1⟩ :=
    buy_explicit_zero_cost tm d1 sym price N htc hp hcash
  set pos0 := (tm.getPos? sym).getD (Position.make sym 0 0) with hpos0
  have hadd : (pos0.add N price).shares = pos0.shares + N := by
    simp [Position.add, not_le.2 hN]
  have hne : ¬ (pos0.add N price).shares = 0 := by
    rw [hadd]
    have : 0 < pos0.shares + N := by linarith
    exact ne_of_gt this
  have hNle : N ≤ (pos0.add N price).shares := by
    rw [hadd]; linarith
  obtain ⟨r2, tm2, hsell, hcash2⟩ :=
    sell_explicit_zero_cost tm1 d2 sym price N (pos0.add N price)
      (htc1.trans htc) hp hgp1 hne hNle
  refine ⟨r1, tm1, r2, tm2, hbuy, hsell, ?_⟩
  rw [hcash2, hcash1]
  ring

/-- Witness for C7 amended: a fresh account with 10000 cash and an all-zero
cost model round-trips 100 shares at price 10 with cash unchanged. -/
theorem C7_round_trip_witness :
    ∃ r1 tm1 r2 tm2,
      (mkTradeManager 10000 ⟨0, 0, 0⟩).buy 0 "X" 10 (some 100) none true =
        Except.ok (some r1, tm1) ∧
      tm1.sell 1 "X" 10 (some 100) none none = Except.ok (some r2, tm2) ∧
      tm2.cash = (mkTradeManager 10000 ⟨0, 0, 0⟩).cash :=
  C7_round_trip (mkTradeManager 10000 ⟨0, 0, 0⟩) 0 1 "X" 10 100 rfl
    (by norm_num) ⟨1, by norm_num⟩ (by norm_num [mkTradeManager])
    (by norm_num [mkTradeManager, TradeManager.getPos?, Position.make])

/-! ### Performance: round-trip trade pairing (performance.py) -/

/-- The filter `t.trade_type == TradeType.BUY` from performance.py. -/
def isBuyRecord (t : TradeRecord) : Bool := t.trade_type == TradeType.BUY

/-- The filter `t.trade_type == TradeType.SELL` from performance.py. -/
def isSellRecord (t : TradeRecord) : Bool := t.trade_type == TradeType.SELL

/-- The while loop of `Performance.calculate_portfolio` (lines 252-263 of
performance.py), with its two explicit cursors `buy_index`/`sell_index`. -/
def pairLoop (buys sells : List TradeRecord) (bi si : ℕ) :
    List (TradeRecord × TradeRecord) :=
  if h : bi < buys.length ∧ si < sells.length then
    let b := buys.get ⟨bi, h.1⟩
    let s := sells.get ⟨si, h.2⟩
    if b.date < s.date then (b, s) :: pairLoop buys sells (bi + 1) (si + 1)
    else pairLoop buys sells bi (si + 1)
  else []
termination_by (buys.length - bi) + (sells.length - si)
decreasing_by
  all_goals omega

/-- The pairing walk as the spec describes it: the current BUY is paired
with the current SELL exactly when the SELL's date is strictly after the
BUY's date (then both cursors advance); otherwise only the SELL cursor
advances. -/
def pairRec : List TradeRecord → List TradeRecord → List (TradeRecord × TradeRecord)
  | [], _ => []
  | _ :: _, [] => []
  | b :: bs, s :: ss =>
    if b.date < s.date then (b, s) :: pairRec bs ss else pairRec (b :: bs) ss
termination_by l1 l2 => l1.length + l2.length
decreasing_by
  all_goals simp [List.length_cons]
  omega

/-- The per-symbol grouping of the trade history (lines 236-241 of
performance.py): a dict in insertion order, skipping records with an empty
symbol. -/
def tradesBySymbol (history : List TradeRecord) :
    List (String × List TradeRecord) :=
  history.foldl
    (fun acc t =>
      if t.symbol = "" then acc
      else if acc.any (fun p => p.1 == t.symbol) then
        acc.map (fun p => if p.1 == t.symbol then (p.1, p.2 ++ [t]) else p)
      else acc ++ [(t.symbol, [t])])
    []

/-- The paired trades computed by `Performance.calculate_portfolio`:
group by symbol, filter each group into BUY and SELL subsequences, and run
the two-cursor while loop on each. -/
def pairedTradesPortfolio (history : List TradeRecord) :
    List (TradeRecord × TradeRecord) :=
  (tradesBySymbol history).flatMap
    (fun p => pairLoop (p.2.filter isBuyRecord) (p.2.filter isSellRecord) 0 0)

lemma pairRec_nil_left (sells : List TradeRecord) : pairRec [] sells = [] := by
  rw [pairRec.eq_def]

lemma pairRec_nil_right (buys : List TradeRecord) : pairRec buys [] = [] := by
  rw [pairRec.eq_def]
  cases buys <;> rfl

lemma pairLoop_eq_pairRec (buys sells : List TradeRecord) :
    ∀ (n bi si : ℕ), (buys.length - bi) + (sells.length - si) ≤ n →
      pairLoop buys sells bi si = pairRec (buys.drop bi) (sells.drop si) := by
  intro n
  induction n with
  | zero =>
    intro bi si hn
    have hb : buys.length ≤ bi := by omega
    rw [pairLoop.eq_def, dif_neg (by omega)]
    rw [List.drop_eq_nil_of_le hb, pairRec_nil_left]
  | succ n ih =>
    intro bi si hn
    rw [pairLoop.eq_def]
    by_cases h : bi < buys.length ∧ si < sells.length
    · rw [dif_pos h]
      rw [List.drop_eq_getElem_cons h.1, List.drop_eq_getElem_cons h.2]
      rw [pairRec.eq_def]
      by_cases hd : (buys.get ⟨bi, h.1⟩).date < (sells.get ⟨si, h.2⟩).date
      · simp only [List.get_eq_getElem] at hd
        simp only [if_pos hd, List.get_eq_getElem]
        rw [ih (bi + 1) (si + 1) (by omega)]
      · simp only [List.get_eq_getElem] at hd
        simp only [if_neg hd, List.get_eq_getElem]
        rw [ih bi (si + 1) (by omega), List.drop_eq_getElem_cons h.1]
    · rw [dif_neg h]
      rcases not_and_or.1 h with hb | hs
      · rw [List.drop_eq_nil_of_le (show buys.length ≤ bi by omega),
          pairRec_nil_left]
      · rw [show sells.drop si = [] from
          List.drop_eq_nil_of_le (by omega), pairRec_nil_right]

/-- C8 confirmed: the paired trades of `Performance.calculate_portfolio`
(per-symbol grouping + BUY/SELL filters + index-based while loop) equal the
spec's description — a two-cursor walk that pairs the current BUY with the
current SELL exactly when the SELL's date is strictly after the BUY's date
(advancing both cursors) and otherwise advances only the SELL cursor. -/
theorem C8_pairing (history : List TradeRecord) :
    pairedTradesPortfolio history =
      (tradesBySymbol history).flatMap
        (fun p => pairRec (p.2.filter isBuyRecord) (p.2.filter isSellRecord)) := by
  unfold pairedTradesPortfolio
  congr 1
  funext p
  have h := pairLoop_eq_pairRec (p.2.filter isBuyRecord)
    (p.2.filter isSellRecord)
    ((p.2.filter isBuyRecord).length + (p.2.filter isSellRecord).length)
    0 0 (by omega)
  simpa using h

/-! ### SignalStrategy.run per-bar step (strategy.py) -/

/-- One bar of the strategy loop: date, close price and the signal value. -/
structure Bar where
  date : ℤ
  close : ℚ
  signal : ℤ
deriving DecidableEq, Repr

/-- Which trade call (if any) the per-bar loop body of `SignalStrategy.run`
made on this bar, together with the call's returned record. -/
inductive StepAction where
  | buyInvoked (r : Option TradeRecord)
  | sellInvoked (shares : ℚ) (r : Option TradeRecord)
  | noTrade
deriving DecidableEq, Repr

/-- Whether the step invoked `buy`. -/
def isBuyAction : StepAction → Bool
  | StepAction.buyInvoked _ => true
  | _ => false

/-- `trade_manager.get_position(symbol).shares` from strategy.py. -/
def heldShares (tm : TradeManager) (symbol : String) : ℚ :=
  ((tm.getPos? symbol).getD (Position.make symbol 0 0)).shares

/-- The buy sizing of `SignalStrategy.run` (lines 118-126 of strategy.py):
fixed share count if `position_size` is given, else an amount of
`cash * position_pct` if given, else 90% of cash. -/
def runSizing (tm : TradeManager) (positionSize positionPct : Option ℚ) :
    Option ℚ × Option ℚ :=
  match positionSize with
  | some n => (some n, none)
  | none =>
    match positionPct with
    | some pct => (none, some (tm.cash * pct))
    | none => (none, some (tm.cash * (9/10)))

/-- The loop body of `SignalStrategy.run` (lines 101-161 of strategy.py) for
one bar: on signal 1 it ALWAYS invokes `buy` (no position check); on signal
-1 it invokes `sell` for the full held quantity only when shares are held;
afterwards it appends the daily portfolio-value snapshot. -/
def signalStep (symbol : String) (positionSize positionPct : Option ℚ)
    (tm : TradeManager) (bar : Bar) :
    Except String (StepAction × TradeManager) :=
  if bar.signal = 1 then
    match tm.buy bar.date symbol bar.close
        (runSizing tm positionSize positionPct).1
        (runSizing tm positionSize positionPct).2 true with
    | Except.error e => Except.error e
    | Except.ok (r, tm1) =>
      Except.ok (StepAction.buyInvoked r,
        tm1.update_portfolio_value bar.date [(symbol, bar.close)])
  else if bar.signal = -1 then
    if 0 < heldShares tm symbol then
      match tm.sell bar.date symbol bar.close
          (some (heldShares tm symbol)) none none with
      | Except.error e => Except.error e
      | Except.ok (r, tm1) =>
        Except.ok (StepAction.sellInvoked (heldShares tm symbol) r,
          tm1.update_portfolio_value bar.date [(symbol, bar.close)])
    else Except.ok (StepAction.noTrade,
      tm.update_portfolio_value bar.date [(symbol, bar.close)])
  else Except.ok (StepAction.noTrade,
    tm.update_portfolio_value bar.date [(symbol, bar.close)])

/-- Concrete account for the C9 counterexample: plenty of cash AND a huge
existing position of 1000000 shares of "X". -/
def tmC9 : TradeManager :=
  { initial_cash := 1000000
    cash := 1000000
    trade_cost := ⟨3/10000, 5, 1/10000⟩
    positions := [("X", Position.make "X" 1000000 1)]
    trade_history := []
    daily_portfolio_value := [] }

/-- C9 counterexample: on a bar with signal 1, `SignalStrategy.run` invokes
`buy` even though 1000000 shares are already held (a position whose market
value 10000000 dwarfs the 900000 buy amount): the loop has no position
check on the buy side, contradicting "only when no (or insufficient)
position is currently held". -/
theorem C9_cex :
    (signalStep "X" none none tmC9 ⟨0, 10, 1⟩).toOption.map
        (fun p => isBuyAction p.1) = some true ∧
      heldShares tmC9 "X" = 1000000 ∧
      tmC9.cash * (9/10) < heldShares tmC9 "X" * 10 := by
  refine ⟨?_, ?_, ?_⟩
  · norm_num [signalStep, runSizing, tmC9, heldShares, TradeManager.getPos?,
      Position.make, TradeManager.buy, TradeManager.buyCore, resolveBuyShares, buySizing, pyInt,
      TradeCost.calculate, TradeManager.commitBuy, setPos, Position.add,
      TradeManager.update_portfolio_value, Position.market_value,
      Except.toOption, Option.some_ne_none, isBuyAction, min_def, max_def]
  · norm_num [tmC9, heldShares, TradeManager.getPos?, Position.make]
  · norm_num [tmC9, heldShares, TradeManager.getPos?, Position.make]

/-- C9 amended: in the per-bar loop, `buy` is invoked exactly when the
bar's signal is 1 (with no position precondition at all), and `sell` — for
the full held quantity — is invoked exactly when the signal is -1 and a
positive position is held. -/
theorem C9_step_trade_conditions (symbol : String) (psize ppct : Option ℚ)
    (tm : TradeManager) (bar : Bar) (a : StepAction) (tm' : TradeManager)
    (h : signalStep symbol psize ppct tm bar = Except.ok (a, tm')) :
    (isBuyAction a = true ↔ bar.signal = 1) ∧
    (∀ sh r, a = StepAction.sellInvoked sh r →
      bar.signal = -1 ∧ 0 < heldShares tm symbol ∧
        sh = heldShares tm symbol) ∧
    (bar.signal = -1 → 0 < heldShares tm symbol →
      ∃ sh r, a = StepAction.sellInvoked sh r ∧
        sh = heldShares tm symbol) := by
  rw [signalStep] at h
  by_cases h1 : bar.signal = 1
  · rw [if_pos h1] at h
    rcases hb : tm.buy bar.date symbol bar.close
        (runSizing tm psize ppct).1 (runSizing tm psize ppct).2 true with e | pr
    · rw [hb] at h
      cases h
    · obtain ⟨r, tm1⟩ := pr
      rw [hb] at h
      have ha : StepAction.buyInvoked r = a := by
        have := h
        simp only [Except.ok.injEq, Prod.mk.injEq] at this
        exact this.1
      subst ha
      refine ⟨⟨fun _ => h1, fun _ => rfl⟩, ?_, ?_⟩
      · intro sh r' heq
        cases heq
      · intro hneg
        rw [h1] at hneg
        cases hneg
  · rw [if_neg h1] at h
    by_cases h2 : bar.signal = -1
    · rw [if_pos h2] at h
      by_cases h3 : 0 < heldShares tm symbol
      · rw [if_pos h3] at h
        rcases hs : tm.sell bar.date symbol bar.close
            (some (heldShares tm symbol)) none none with e | pr
        · rw [hs] at h
          cases h
        · obtain ⟨r, tm1⟩ := pr
          rw [hs] at h
          have ha : StepAction.sellInvoked (heldShares tm symbol) r = a := by
            have := h
            simp only [Except.ok.injEq, Prod.mk.injEq] at this
            exact this.1
          subst ha
          refine ⟨⟨fun hba => ?_, fun hsig => absurd hsig h1⟩, ?_, ?_⟩
          · cases hba
          · intro sh r' heq
            have := StepAction.sellInvoked.injEq .. ▸ heq
            simp only [StepAction.sellInvoked.injEq] at heq
            exact ⟨h2, heq.1 ▸ h3, heq.1.symm⟩
          · intro _ _
            exact ⟨heldShares tm symbol, r, rfl, rfl⟩
      · rw [if_neg h3] at h
        have ha : StepAction.noTrade = a := by
          have := h
          simp only [Except.ok.injEq, Prod.mk.injEq] at this
          exact this.1
        subst ha
        refine ⟨⟨fun hba => ?_, fun hsig => absurd hsig h1⟩, ?_, ?_⟩
        · cases hba
        · intro sh r' heq
          cases heq
        · intro _ hpos
          exact absurd hpos h3
    · rw [if_neg h2] at h
      have ha : StepAction.noTrade = a := by
        have := h
        simp only [Except.ok.injEq, Prod.mk.injEq] at this
        exact this.1
      subst ha
      refine ⟨⟨fun hba => ?_, fun hsig => absurd hsig h1⟩, ?_, ?_⟩
      · cases hba
      · intro sh r' heq
        cases heq
      · intro hsig _
        exact absurd hsig h2

/-- Fresh empty account for the C9 witness. -/
def tmC9w : TradeManager := mkTradeManager 0 ⟨0, 0, 0⟩

/-- Witness for C9 amended, at a concrete bar with signal 0 on a fresh
account: the step makes no trade call. -/
theorem C9_step_trade_conditions_witness :
    (isBuyAction StepAction.noTrade = true ↔ ((⟨0, 1, 0⟩ : Bar).signal = 1)) ∧
    (∀ sh r, StepAction.noTrade = StepAction.sellInvoked sh r →
      ((⟨0, 1, 0⟩ : Bar).signal = -1) ∧ 0 < heldShares tmC9w "X" ∧
        sh = heldShares tmC9w "X") ∧
    (((⟨0, 1, 0⟩ : Bar).signal = -1) → 0 < heldShares tmC9w "X" →
      ∃ sh r, StepAction.noTrade = StepAction.sellInvoked sh r ∧
        sh = heldShares tmC9w "X") :=
  C9_step_trade_conditions "X" none none tmC9w ⟨0, 1, 0⟩ StepAction.noTrade
    (tmC9w.update_portfolio_value 0 [("X", 1)]) rfl

/-! ### C1: the cash invariant over arbitrary buy/sell sequences -/

/-- An arbitrary call on the `TradeManager`: a buy or a sell with any
arguments. -/
inductive Op where
  | buyOp (date : ℤ) (symbol : String) (price : ℚ)
      (sharesOpt amountOpt : Option ℚ) ( allowPartial : Bool)
  | sellOp (date : ℤ) (symbol : String) (price : ℚ)
      (sharesOpt amountOpt percentOpt : Option ℚ)

/-- An optional directive that, when present, is nonnegative. -/
def optNonneg : Option ℚ → Bool
  | none => true
  | some x => decide (0 ≤ x)

/-- Well-formed sizing directives: sell share counts and sell amounts are
nonnegative (a negative explicit sell directive mints negative income). -/
def Op.wf : Op → Bool
  | Op.buyOp _ _ _ _ _ _ => true
  | Op.sellOp _ _ _ s a _ => optNonneg s && optNonneg a

/-- Apply one call; an exception leaves the state unchanged (the raise
happens before any mutation in the source). -/
def applyOp (tm : TradeManager) : Op → TradeManager
  | Op.buyOp d sym price s a ap =>
    match tm.buy d sym price s a ap with
    | Except.ok (_, tm') => tm'
    | Except.error _ => tm
  | Op.sellOp d sym price s a pc =>
    match tm.sell d sym price s a pc with
    | Except.ok (_, tm') => tm'
    | Except.error _ => tm

/-- Apply a whole sequence of calls in order. -/
def applyOps (tm : TradeManager) (ops : List Op) : TradeManager :=
  ops.foldl applyOp tm

/-- Cost-model conditions under which the cash invariant is provable:
nonnegative rates summing to at most 1 and a zero minimum commission. -/
def costOk (tc : TradeCost) : Prop :=
  0 ≤ tc.commission_rate ∧ 0 ≤ tc.slippage_rate ∧
    tc.commission_rate + tc.slippage_rate ≤ 1 ∧ tc.min_commission = 0

/-- The ledger invariant: nonnegative cash and nonnegative position sizes. -/
def TradeManager.Inv (tm : TradeManager) : Prop :=
  0 ≤ tm.cash ∧ ∀ p ∈ tm.positions, 0 ≤ p.2.shares

lemma Position.add_shares_nonneg (p : Position) (s pr : ℚ) (h : 0 ≤ p.shares) :
    0 ≤ (p.add s pr).shares := by
  rw [Position.add]
  split
  · exact h
  · rename_i hs
    have : 0 < s := lt_of_not_ge hs
    show 0 ≤ p.shares + s
    linarith

lemma Position.remove_shares_nonneg (p : Position) (s : ℚ) (h : 0 ≤ p.shares) :
    0 ≤ ((p.remove s).2).shares := by
  simp only [Position.remove]
  split
  · exact h
  · split
    · norm_num
    · show 0 ≤ p.shares - min s p.shares
      have := min_le_right s p.shares
      linarith

lemma setPos_nonneg (l : List (String × Position)) (sym : String)
    (pos : Position) (hl : ∀ p ∈ l, 0 ≤ p.2.shares) (hpos : 0 ≤ pos.shares) :
    ∀ p ∈ setPos l sym pos, 0 ≤ p.2.shares := by
  intro p hp
  rw [setPos] at hp
  split at hp
  · obtain ⟨q, hq, hfq⟩ := List.mem_map.1 hp
    by_cases hqs : (q.1 == sym) = true
    · rw [if_pos hqs] at hfq
      rw [← hfq]
      exact hpos
    · rw [if_neg hqs] at hfq
      rw [← hfq]
      exact hl q hq
  · rcases List.mem_append.1 hp with hmem | hmem
    · exact hl p hmem
    · have : p = (sym, pos) := by simpa using hmem
      rw [this]
      exact hpos

lemma getPos?_default_shares_nonneg (tm : TradeManager) (sym : String)
    (hinv : ∀ p ∈ tm.positions, 0 ≤ p.2.shares) :
    0 ≤ ((tm.getPos? sym).getD (Position.make sym 0 0)).shares := by
  cases hfp : tm.getPos? sym with
  | none =>
    show (0:ℚ) ≤ (Position.make sym 0 0).shares
    norm_num [Position.make]
  | some q =>
    rw [TradeManager.getPos?] at hfp
    cases hf : tm.positions.find? (fun p => p.1 == sym) with
    | none => rw [hf] at hfp; cases hfp
    | some entry =>
      rw [hf] at hfp
      have hmem : entry ∈ tm.positions := List.mem_of_find?_eq_some hf
      have : entry.2 = q := by simpa using hfp
      rw [Option.getD_some]
      rw [← this]
      exact hinv entry hmem

lemma getPos?_some_shares_nonneg (tm : TradeManager) (sym : String)
    (q : Position) (hinv : ∀ p ∈ tm.positions, 0 ≤ p.2.shares)
    (hfp : tm.getPos? sym = some q) : 0 ≤ q.shares := by
  have := getPos?_default_shares_nonneg tm sym hinv
  rw [hfp] at this
  simpa using this

lemma buyMaxShares_nonneg (cash price : ℚ) (tc : TradeCost)
    (h0 : 0 ≤ cash) (hp : 0 < price) (hcr : 0 ≤ tc.commission_rate)
    (hsr : 0 ≤ tc.slippage_rate) : 0 ≤ buyMaxShares cash price tc := by
  rw [buyMaxShares]
  have hD : 0 < price * (1 + tc.commission_rate + tc.slippage_rate) := by
    have : (0:ℚ) < 1 + tc.commission_rate + tc.slippage_rate := by linarith
    exact mul_pos hp this
  have hq : 0 ≤ cash / (price * (1 + tc.commission_rate + tc.slippage_rate)) / 100 := by
    positivity
  have := pyInt_nonneg _ hq
  have hcast : (0:ℚ) ≤ ((pyInt (cash / (price * (1 + tc.commission_rate +
      tc.slippage_rate)) / 100) : ℚ)) := by exact_mod_cast this
  nlinarith

lemma buyMaxShares_spend_le (cash price : ℚ) (tc : TradeCost)
    (h0 : 0 ≤ cash) (hp : 0 < price) (hcr : 0 ≤ tc.commission_rate)
    (hsr : 0 ≤ tc.slippage_rate) :
    price * (1 + tc.commission_rate + tc.slippage_rate) *
      buyMaxShares cash price tc ≤ cash := by
  set D := price * (1 + tc.commission_rate + tc.slippage_rate) with hDdef
  have hD : 0 < D := by
    rw [hDdef]
    have : (0:ℚ) < 1 + tc.commission_rate + tc.slippage_rate := by linarith
    exact mul_pos hp this
  have hq : 0 ≤ cash / D := div_nonneg h0 hD.le
  have hle : ((pyInt (cash / D / 100) : ℚ)) * 100 ≤ cash / D :=
    pyInt_div_hundred_mul_le (cash / D) hq
  have h1 : D * (((pyInt (cash / D / 100) : ℚ)) * 100) ≤ D * (cash / D) :=
    mul_le_mul_of_nonneg_left hle hD.le
  have h2 : D * (cash / D) = cash := by
    field_simp
  rw [buyMaxShares, ← hDdef]
  linarith

lemma calculate_costOk (tc : TradeCost) (hc : costOk tc) (price s : ℚ)
    (hps : 0 ≤ price * s) :
    tc.calculate price s =
      (price * s * tc.commission_rate, price * s * tc.slippage_rate,
        price * s * tc.commission_rate + price * s * tc.slippage_rate) := by
  rw [TradeCost.calculate, hc.2.2.2]
  rw [max_eq_left (mul_nonneg hps hc.1)]

lemma commitBuy_inv (tm : TradeManager) (d : ℤ) (sym : String)
    (price shares commission slippage total_cost total_spend : ℚ)
    (hinv : tm.Inv) (hspend : total_spend ≤ tm.cash) :
    (tm.commitBuy d sym price shares commission slippage total_cost
      total_spend).2.Inv ∧
    (tm.commitBuy d sym price shares commission slippage total_cost
      total_spend).2.trade_cost = tm.trade_cost := by
  refine ⟨⟨?_, ?_⟩, rfl⟩
  · show 0 ≤ tm.cash - total_spend
    linarith [hinv.1]
  · show ∀ p ∈ setPos tm.positions sym
        (((tm.getPos? sym).getD (Position.make sym 0 0)).add shares price),
      0 ≤ p.2.shares
    exact setPos_nonneg _ _ _ hinv.2
      (Position.add_shares_nonneg _ _ _
        (getPos?_default_shares_nonneg tm sym hinv.2))

lemma buyCore_preserves_inv (tm : TradeManager) (d : ℤ) (sym : String)
    (price shares1 : ℚ) (ap : Bool) (hc : costOk tm.trade_cost)
    (hinv : tm.Inv) (hp : 0 < price) :
    (tm.buyCore d sym price shares1 ap).2.Inv ∧
    (tm.buyCore d sym price shares1 ap).2.trade_cost = tm.trade_cost := by
  rw [TradeManager.buyCore]
  by_cases hsp : tm.cash <
      price * shares1 + (tm.trade_cost.calculate price shares1).2.2
  · rw [if_pos hsp]
    cases ap with
    | false => exact ⟨hinv, rfl⟩
    | true =>
      simp only [Bool.true_eq_false, if_false]
      by_cases hms : buyMaxShares tm.cash price tm.trade_cost = 0
      · rw [if_pos hms]
        exact ⟨hinv, rfl⟩
      · rw [if_neg hms]
        set ms := buyMaxShares tm.cash price tm.trade_cost with hmsdef
        have hms0 : 0 ≤ ms :=
          buyMaxShares_nonneg tm.cash price tm.trade_cost hinv.1 hp
            hc.1 hc.2.1
        have hps : 0 ≤ price * ms := mul_nonneg hp.le hms0
        have hcalc := calculate_costOk tm.trade_cost hc price ms hps
        have hD := buyMaxShares_spend_le tm.cash price tm.trade_cost hinv.1 hp
          hc.1 hc.2.1
        rw [← hmsdef] at hD
        have hspend2 : price * ms + (tm.trade_cost.calculate price ms).2.2 ≤
            tm.cash := by
          have hred : (tm.trade_cost.calculate price ms).2.2 =
              price * ms * tm.trade_cost.commission_rate +
                price * ms * tm.trade_cost.slippage_rate := by
            rw [hcalc]
          rw [hred]
          have heq : price * ms + (price * ms * tm.trade_cost.commission_rate +
              price * ms * tm.trade_cost.slippage_rate) =
              price * (1 + tm.trade_cost.commission_rate +
                tm.trade_cost.slippage_rate) * ms := by
            ring
          rw [heq]
          exact hD
        exact commitBuy_inv tm d sym price ms _ _ _ _ hinv hspend2
  · rw [if_neg hsp]
    exact commitBuy_inv tm d sym price shares1 _ _ _ _ hinv (not_lt.1 hsp)

lemma buy_preserves_inv (tm : TradeManager) (d : ℤ) (sym : String)
    (price : ℚ) (sOpt aOpt : Option ℚ) (ap : Bool)
    (hc : costOk tm.trade_cost) (hinv : tm.Inv) :
    ∀ res tm', tm.buy d sym price sOpt aOpt ap = Except.ok (res, tm') →
      tm'.Inv ∧ tm'.trade_cost = tm.trade_cost := by
  intro res tm' h
  by_cases hple : price ≤ 0
  · rw [TradeManager.buy, if_pos hple] at h
    exact Except.noConfusion h
  · rw [TradeManager.buy, if_neg hple] at h
    have hp : 0 < price := lt_of_not_ge hple
    have hcore := buyCore_preserves_inv tm d sym price
      (resolveBuyShares sOpt aOpt price ap) ap hc hinv hp
    by_cases hnn : sOpt = none ∧ aOpt = none
    · rw [if_pos hnn] at h
      exact Except.noConfusion h
    · rw [if_neg hnn] at h
      have h3 : (tm.buyCore d sym price
          (resolveBuyShares sOpt aOpt price ap) ap).2 = tm' :=
        congrArg Prod.snd (Except.ok.inj h)
      rw [← h3]
      exact hcore

lemma resolveSellShares_nonneg (held : ℚ) (sOpt aOpt pOpt : Option ℚ)
    (price : ℚ) (hheld : 0 ≤ held) (hp : 0 < price)
    (hs : optNonneg sOpt = true) (ha : optNonneg aOpt = true) :
    ∀ s0, resolveSellShares held sOpt aOpt pOpt price = Except.ok s0 →
      0 ≤ s0 := by
  intro s0 h
  cases sOpt with
  | some s =>
    have hok := Except.ok.inj h
    rw [← hok]
    simpa [optNonneg] using hs
  | none =>
    cases aOpt with
    | some a =>
      have ha' : 0 ≤ a := by simpa [optNonneg] using ha
      have hfl : 0 ≤ ((pyInt (a / price / 100) : ℚ)) * 100 := by
        have h1 : 0 ≤ a / price / 100 := by positivity
        have h2 := pyInt_nonneg _ h1
        have h3 : (0:ℚ) ≤ ((pyInt (a / price / 100) : ℚ)) := by exact_mod_cast h2
        nlinarith
      have hok := Except.ok.inj h
      rw [← hok]
      split
      · exact le_min hheld (by norm_num)
      · exact le_min hheld hfl
    | none =>
      cases pOpt with
      | none =>
        have hok := Except.ok.inj h
        rw [← hok]
        exact hheld
      | some pc =>
        by_cases hpc : 0 ≤ pc ∧ pc ≤ 1
        · rw [resolveSellShares, if_pos hpc] at h
          have hok := Except.ok.inj h
          rw [← hok]
          split
          · exact le_min hheld (by norm_num)
          · have h1 : 0 ≤ held * pc / 100 :=
              div_nonneg (mul_nonneg hheld hpc.1) (by norm_num)
            have h2 := pyInt_nonneg _ h1
            have h3 : (0:ℚ) ≤ ((pyInt (held * pc / 100) : ℚ)) := by
              exact_mod_cast h2
            nlinarith
        · rw [resolveSellShares, if_neg hpc] at h
          exact Except.noConfusion h

lemma sell_preserves_inv (tm : TradeManager) (d : ℤ) (sym : String)
    (price : ℚ) (sOpt aOpt pOpt : Option ℚ) (hc : costOk tm.trade_cost)
    (hinv : tm.Inv) (hs : optNonneg sOpt = true) (ha : optNonneg aOpt = true) :
    ∀ res tm', tm.sell d sym price sOpt aOpt pOpt = Except.ok (res, tm') →
      tm'.Inv ∧ tm'.trade_cost = tm.trade_cost := by
  intro res tm' h
  by_cases hple : price ≤ 0
  · rw [TradeManager.sell, if_pos hple] at h
    exact Except.noConfusion h
  · rw [TradeManager.sell, if_neg hple] at h
    have hp : 0 < price := lt_of_not_ge hple
    cases hq : tm.getPos? sym with
    | none =>
      rw [hq] at h
      have h3 : tm = tm' := congrArg Prod.snd (Except.ok.inj h)
      rw [← h3]
      exact ⟨hinv, rfl⟩
    | some q =>
      rw [hq] at h
      simp only [] at h
      by_cases hq0 : q.shares = 0
      · rw [if_pos hq0] at h
        have h3 : tm = tm' := congrArg Prod.snd (Except.ok.inj h)
        rw [← h3]
        exact ⟨hinv, rfl⟩
      · rw [if_neg hq0] at h
        have hqn : 0 ≤ q.shares := getPos?_some_shares_nonneg tm sym q hinv.2 hq
        cases hrs : resolveSellShares q.shares sOpt aOpt pOpt price with
        | error e =>
          rw [hrs] at h
          exact Except.noConfusion h
        | ok s0 =>
          rw [hrs] at h
          have hs0 : 0 ≤ s0 :=
            resolveSellShares_nonneg q.shares sOpt aOpt pOpt price hqn hp hs ha
              s0 hrs
          injection h with hpair
          injection hpair with hres htm
          rw [← htm]
          have hsh0 : 0 ≤ min s0 q.shares := le_min hs0 hqn
          have hps : 0 ≤ price * min s0 q.shares := mul_nonneg hp.le hsh0
          have hcalc := calculate_costOk tm.trade_cost hc price
            (min s0 q.shares) hps
          refine ⟨⟨?_, ?_⟩, rfl⟩
          · show 0 ≤ tm.cash + (price * min s0 q.shares -
              (tm.trade_cost.calculate price (min s0 q.shares)).2.2)
            have hred : (tm.trade_cost.calculate price (min s0 q.shares)).2.2 =
                price * min s0 q.shares * tm.trade_cost.commission_rate +
                  price * min s0 q.shares * tm.trade_cost.slippage_rate := by
              rw [hcalc]
            rw [hred]
            have hfac : 0 ≤ price * min s0 q.shares *
                (1 - (tm.trade_cost.commission_rate +
                  tm.trade_cost.slippage_rate)) :=
              mul_nonneg hps (by linarith [hc.2.2.1])
            nlinarith [hinv.1]
          · show ∀ p ∈ setPos tm.positions sym ((q.remove (min s0 q.shares)).2),
              0 ≤ p.2.shares
            exact setPos_nonneg _ _ _ hinv.2
              (Position.remove_shares_nonneg q _ hqn)

lemma applyOp_preserves_inv (tm : TradeManager) (op : Op)
    (hc : costOk tm.trade_cost) (hinv : tm.Inv) (hwf : op.wf = true) :
    (applyOp tm op).Inv ∧ (applyOp tm op).trade_cost = tm.trade_cost := by
  cases op with
  | buyOp d sym price s a ap =>
    rw [applyOp]
    cases hb : tm.buy d sym price s a ap with
    | error e => exact ⟨hinv, rfl⟩
    | ok pr =>
      obtain ⟨res, tm'⟩ := pr
      exact buy_preserves_inv tm d sym price s a ap hc hinv res tm' hb
  | sellOp d sym price s a pc =>
    rw [applyOp]
    have hwf' : optNonneg s = true ∧ optNonneg a = true := by
      simpa [Op.wf, Bool.and_eq_true] using hwf
    cases hb : tm.sell d sym price s a pc with
    | error e => exact ⟨hinv, rfl⟩
    | ok pr =>
      obtain ⟨res, tm'⟩ := pr
      exact sell_preserves_inv tm d sym price s a pc hc hinv hwf'.1 hwf'.2
        res tm' hb

lemma applyOps_preserves_inv (ops : List Op) :
    ∀ tm : TradeManager, costOk tm.trade_cost → tm.Inv →
      (∀ op ∈ ops, op.wf = true) → (applyOps tm ops).Inv := by
  induction ops with
  | nil =>
    intro tm _ hinv _
    exact hinv
  | cons op rest ih =>
    intro tm hc hinv hops
    have h1 := applyOp_preserves_inv tm op hc hinv
      (hops op (List.mem_cons_self op rest))
    have hc' : costOk (applyOp tm op).trade_cost := by
      rw [h1.2]
      exact hc
    exact ih (applyOp tm op) hc' h1.1
      (fun o ho => hops o (List.mem_cons_of_mem op ho))

/-- Concrete account for the C1 counterexample: cash 100, commission_rate 0,
min_commission 5, slippage_rate 0. -/
def tmC1 : TradeManager := mkTradeManager 100 ⟨0, 5, 0⟩

/-- C1 counterexample: with 100 cash and min_commission 5, buying 100
shares at price 1 (spend 105 > 100) triggers the partial-fill recompute,
which IGNORES min_commission: it re-prices at 100 shares again and commits,
leaving cash = -5 < 0.  The claimed invariant `cash ≥ 0` is false. -/
theorem C1_cex :
    (tmC1.buy 0 "X" 1 (some 100) none true).toOption.map (fun p => p.2.cash) =
      some (-5) ∧ ((-5 : ℚ) < 0) := by
  constructor
  · norm_num [tmC1, mkTradeManager, TradeManager.buy, TradeManager.buyCore,
      resolveBuyShares, buySizing, buyMaxShares, pyInt, TradeCost.calculate,
      TradeManager.commitBuy, TradeManager.getPos?, setPos, Position.make,
      Position.add, Except.toOption, Option.some_ne_none]
  · norm_num

/-- C1 amended: `cash ≥ 0` holds after every committed call of any
buy/sell sequence, provided the cost model has nonnegative rates summing to
at most 1 and a ZERO minimum commission, and sell share/amount directives
are nonnegative.  (With min_commission > 0 the partial-fill recompute can
overdraw cash — see the counterexample.) -/
theorem C1_cash_nonneg (tc : TradeCost) (hc : costOk tc) (c0 : ℚ)
    (h0 : 0 ≤ c0) (ops : List Op) (hops : ∀ op ∈ ops, op.wf = true) :
    0 ≤ (applyOps (mkTradeManager c0 tc) ops).cash := by
  have hinv : (mkTradeManager c0 tc).Inv :=
    ⟨h0, fun p hp => absurd hp (List.not_mem_nil p)⟩
  exact (applyOps_preserves_inv ops (mkTradeManager c0 tc) hc hinv hops).1

/-- Witness for C1 amended: a buy of 100 shares at price 10 followed by a
full sell, on 1000 cash with 1% commission and 1% slippage and zero minimum
commission. -/
theorem C1_cash_nonneg_witness :
    0 ≤ (applyOps (mkTradeManager 1000 ⟨1/100, 0, 1/100⟩)
      [Op.buyOp 0 "X" 10 (some 100) none true,
       Op.sellOp 1 "X" 10 none none none]).cash :=
  C1_cash_nonneg ⟨1/100, 0, 1/100⟩
    (by constructor <;> norm_num [costOk]) 1000 (by norm_num) _
    (by intro op hop; fin_cases hop <;> rfl)

end Pybacktest
